import Mathlib

/-!
Verification of the review persistence and aggregation subsystem of the
City Pulse dashboard (src/utils/reviews.py and the review-form write path of
src/app.py), via a shallow embedding in Lean 4.

The SQLite table `reviews` is modelled as a list of rows in rowid order
together with the AUTOINCREMENT sequence counter; `ORDER BY created_at DESC`
is modelled as a stable descending sort of the rowid-ordered rows; the
CURRENT_TIMESTAMP default is modelled by an explicit `now : Nat` argument to
the insert.  Python dicts with integer keys are modelled as insertion-ordered
association lists.  PIL image handling is modelled by an abstract byte type
that records whether the bytes decode to an image and, if so, its dimensions;
`Image.thumbnail((800, 800))` is modelled with exact rational arithmetic in
place of PIL's float arithmetic.  Python's float division in the rating
average is modelled by `ℚ`.
-/

namespace CityPulse

/-- Abstract model of a photo byte payload: either bytes that decode to an
image of known dimensions (with the encoding format and quality used to
produce them) or arbitrary non-image bytes. -/
inductive ImageBytes where
  | valid (w h : Nat) (format : String) (quality : Nat)
  | invalid (data : List Nat)
deriving DecidableEq

/-- Models `PIL.Image.open` on a byte payload: returns the dimensions on
success, `none` when the bytes are not a decodable image (PIL raises). -/
def decodeImage : ImageBytes → Option (Nat × Nat)
  | .valid w h _ _ => some (w, h)
  | .invalid _ => none

/-- Models the `round_aspect` helper inside `PIL.Image.thumbnail`: the target
length is the rational `800 * num / den`; the result is whichever of its floor
and ceiling is closer (ties to the floor, as Python's `min` keeps the first
argument), clamped to be at least 1.  Stated in exact integer arithmetic:
`2 * rem ≤ den` says the fractional part is at most one half. -/
def round_aspect800 (num den : Nat) : Nat :=
  let fl := 800 * num / den
  let rem := 800 * num % den
  max (if 2 * rem ≤ den then fl else fl + 1) 1

/-- Models `img.thumbnail((800, 800), LANCZOS)` from the review-form submit
handler in src/app.py: if the image already fits in 800×800 it is left
unchanged; otherwise the dimension ratio is preserved while the bounding box
is shrunk to fit, never upscaling. -/
def thumbnail800 (w h : Nat) : Nat × Nat :=
  if w ≤ 800 ∧ h ≤ 800 then (w, h)
  else if w ≤ h then (round_aspect800 w h, 800)
  else (800, round_aspect800 h w)

/-- Models the photo-processing step of the review form submit handler in
src/app.py (lines 816–831): when a photo is present, try to decode it,
shrink it to fit 800×800 and re-encode it as JPEG at quality 85; if the
processing raises, the exception is caught and `photo_bytes` stays `None`. -/
def process_submit_photo : Option ImageBytes → Option ImageBytes
  | none => none
  | some pb =>
    match decodeImage pb with
    | none => none
    | some wh =>
      let wh2 := thumbnail800 wh.1 wh.2
      some (ImageBytes.valid wh2.1 wh2.2 ("JPEG") 85)

/-- One row of the `reviews` table (schema in `init_reviews_db`). -/
structure Review where
  id : Nat
  city : String
  rating : Int
  title : String
  text : String
  photo_data : Option ImageBytes
  photo_filename : Option String
  created_at : Nat
deriving DecidableEq

/-- The `reviews` table: rows in rowid order plus the AUTOINCREMENT
sequence (the largest id ever assigned, per sqlite_sequence). -/
structure ReviewsTable where
  rows : List Review
  seq : Nat
deriving DecidableEq

/-- The database file: `none` when the table has not been created yet. -/
abbrev DB := Option ReviewsTable

def emptyTable : ReviewsTable := ⟨[], 0⟩

/-- Models `CREATE TABLE IF NOT EXISTS` as seen by the following statements
of the same operation: the existing table, or a fresh empty one. -/
def ensureTable (db : DB) : ReviewsTable := db.getD emptyTable

/-- Models `init_reviews_db` from src/utils/reviews.py: create the table if
it does not exist, leave it untouched otherwise. -/
def init_reviews_db (db : DB) : DB := some (ensureTable db)

/-- The rows currently in the store. -/
def rowsOf (db : DB) : List Review := (ensureTable db).rows

/-- Models `add_review` from src/utils/reviews.py: INSERT a new row; the id
is assigned by AUTOINCREMENT (one past the sequence); `created_at` defaults
to the current timestamp.  The Python function returns the constant `True`,
modelled by the `Bool` component of the result. -/
def add_review (db : DB) (city : String) (rating : Int) (title review_text : String)
    (photo_bytes : Option ImageBytes) (photo_filename : Option String)
    (now : Nat) : DB × Bool :=
  let t := ensureTable db
  let newId := t.seq + 1
  (some ⟨t.rows ++ [⟨newId, city, rating, title, review_text, photo_bytes,
      photo_filename, now⟩], newId⟩, true)

/-- Python's `bool` is a subclass of `int` with `True == 1`: the numeric
value a caller comparing the return of `add_review` against an id would see. -/
def pyBoolToInt (b : Bool) : Int := if b then 1 else 0

/-- Stable insertion into a list sorted descending by `created_at`: the new
element goes before the first element whose timestamp is not larger. -/
def insertByCreatedDesc (r : Review) : List Review → List Review
  | [] => [r]
  | x :: xs =>
    if x.created_at ≤ r.created_at then r :: x :: xs
    else x :: insertByCreatedDesc r xs

/-- Models `ORDER BY created_at DESC` over the rowid-ordered matching rows:
a stable descending sort (SQLite's sorter keeps the scan order of equal
keys). -/
def sortByCreatedDesc : List Review → List Review
  | [] => []
  | x :: xs => insertByCreatedDesc x (sortByCreatedDesc xs)

/-- The dictionary built for each fetched row by `get_reviews_for_city`
(keys id, rating, title, text, photo_data, photo_filename, created_at —
the city column is not selected). -/
structure ReviewOut where
  id : Nat
  rating : Int
  title : String
  text : String
  photo_data : Option ImageBytes
  photo_filename : Option String
  created_at : Nat
deriving DecidableEq

def rowToDict (r : Review) : ReviewOut :=
  ⟨r.id, r.rating, r.title, r.text, r.photo_data, r.photo_filename, r.created_at⟩

/-- Models `get_reviews_for_city` from src/utils/reviews.py: SELECT rows
WHERE city = ? (exact string equality), ORDER BY created_at DESC, and build
one dictionary per row. -/
def get_reviews_for_city (db : DB) (city : String) : List ReviewOut :=
  (sortByCreatedDesc ((ensureTable db).rows.filter (fun r => r.city == city))).map
    rowToDict

/-- Python dict assignment `d[k] = v` on an insertion-ordered dictionary
with integer keys: overwrite in place if the key exists, append otherwise. -/
def dictSet : List (Int × Nat) → Int → Nat → List (Int × Nat)
  | [], k, v => [(k, v)]
  | (k', v') :: d, k, v =>
    if k' = k then (k, v) :: d else (k', v') :: dictSet d k v

/-- Python dict lookup `d[k]`; every key looked up by the source is present,
so the default 0 is never observed by the modelled code. -/
def dictGet : List (Int × Nat) → Int → Nat
  | [], _ => 0
  | (k', v') :: d, k => if k' = k then v' else dictGet d k

def dictKeys (d : List (Int × Nat)) : List Int := d.map Prod.fst

/-- `sum(d.values())`. -/
def dictValuesSum (d : List (Int × Nat)) : Nat := (d.map Prod.snd).sum

/-- Insertion into a descending-sorted list of integers. -/
def insertIntDesc (x : Int) : List Int → List Int
  | [] => [x]
  | y :: ys => if y ≤ x then x :: y :: ys else y :: insertIntDesc x ys

/-- Descending sort of a list of integers. -/
def sortIntDesc : List Int → List Int
  | [] => []
  | x :: xs => insertIntDesc x (sortIntDesc xs)

/-- Models `SELECT rating, COUNT(*) ... GROUP BY rating ORDER BY rating DESC`
over the matched rows: each distinct rating, in descending order, with the
number of matched rows having it. -/
def groupByRating (rows : List Review) : List (Int × Nat) :=
  (sortIntDesc (rows.map (fun r => r.rating)).dedup).map
    (fun r => (r, rows.countP (fun x => x.rating == r)))

/-- The dict literal `{5: 0, 4: 0, 3: 0, 2: 0, 1: 0}`. -/
def initSummary : List (Int × Nat) := [(5, 0), (4, 0), (3, 0), (2, 0), (1, 0)]

/-- Models `get_city_rating_summary` from src/utils/reviews.py: group the
exactly-matching rows by rating, overlay the counts on the all-zero
five-key dict, then `total = sum(summary.values())` and
`average = sum(r * summary[r] for r in range(1, 6)) / total` when
`total > 0`, else `0`.  Python's float division is modelled by `ℚ`. -/
def get_city_rating_summary (db : DB) (city : String) :
    List (Int × Nat) × ℚ × Nat :=
  let matched := (ensureTable db).rows.filter (fun r => r.city == city)
  let summary := (groupByRating matched).foldl
    (fun d rc => dictSet d rc.1 rc.2) initSummary
  let total := dictValuesSum summary
  let average : ℚ :=
    if 0 < total then
      (((List.range' 1 5).map
        (fun (r : Nat) => (r : ℚ) * (dictGet summary (r : Int) : ℚ))).sum) / (total : ℚ)
    else 0
  (summary, average, total)

/-- Models `delete_review` from src/utils/reviews.py: DELETE the rows whose
id matches (at most one, since id is the primary key); returns `True`
regardless of whether a row was deleted. -/
def delete_review (db : DB) (review_id : Nat) : DB × Bool :=
  let t := ensureTable db
  (some ⟨t.rows.filter (fun r => r.id != review_id), t.seq⟩, true)

/-- The spec's AddReview operation: the app-side photo normalization
(src/app.py lines 816–831) followed by the store insert
(`add_review`); on photo-processing failure the insert still runs with
`photo_bytes = None`. -/
def submit_review (db : DB) (city : String) (rating : Int) (title review_text : String)
    (final_photo : Option ImageBytes) (photo_filename : Option String)
    (now : Nat) : DB × Bool :=
  add_review db city rating title review_text (process_submit_photo final_photo)
    photo_filename now

/-- One store operation, for reasoning about operation sequences. -/
inductive Op where
  | addOp (city : String) (rating : Int) (title review_text : String)
      (photo : Option ImageBytes) (fname : Option String) (now : Nat)
  | delOp (review_id : Nat)

/-- Apply one operation to the database. -/
def applyOp (db : DB) : Op → DB
  | .addOp c r t x p f n => (add_review db c r t x p f n).1
  | .delOp i => (delete_review db i).1

/-- Run a sequence of operations. -/
def runOps (db : DB) : List Op → DB
  | [] => db
  | op :: ops => runOps (applyOp db op) ops

/-- The ids assigned by the successive AddReview operations of a sequence,
in order. -/
def assignedIds (db : DB) : List Op → List Nat
  | [] => []
  | op :: ops =>
    match op with
    | .addOp _ _ _ _ _ _ _ =>
      ((ensureTable db).seq + 1) :: assignedIds (applyOp db op) ops
    | .delOp _ => assignedIds (applyOp db op) ops

/-- Well-formedness of a table, maintained by every operation: row ids are
strictly increasing in rowid order and never exceed the sequence counter. -/
def TableWF (t : ReviewsTable) : Prop :=
  ((t.rows.map (fun r => r.id)).Pairwise (· < ·)) ∧ ∀ r ∈ t.rows, r.id ≤ t.seq

instance (t : ReviewsTable) : Decidable (TableWF t) := by
  unfold TableWF; infer_instance

/-- Well-formedness of the database. -/
def WF : DB → Prop
  | none => True
  | some t => TableWF t

instance (db : DB) : Decidable (WF db) := by
  unfold WF; cases db <;> infer_instance

/-- The row inserted by `add_review`. -/
def newReview (db : DB) (city : String) (rating : Int) (title review_text : String)
    (photo_bytes : Option ImageBytes) (photo_filename : Option String)
    (now : Nat) : Review :=
  ⟨(ensureTable db).seq + 1, city, rating, title, review_text, photo_bytes,
    photo_filename, now⟩

/-- The relation in which `get_reviews_for_city` output is sorted: newest
first, ties in `created_at` resolved by insertion order (smaller id first). -/
def newestFirst (a b : ReviewOut) : Prop :=
  b.created_at < a.created_at ∨ (a.created_at = b.created_at ∧ a.id < b.id)

/-- Concrete stores and inputs used to instantiate the theorems. -/
def c1db : DB := some ⟨[⟨1, "Paris", 5, "nice", "great", none, none, 5⟩], 1⟩

def c2db : DB := some ⟨[⟨1, "Goa", 5, "a", "p", none, none, 1⟩,
  ⟨2, "Goa", 5, "b", "q", none, none, 2⟩,
  ⟨3, "Goa", 4, "c", "r", none, none, 3⟩,
  ⟨4, "Goa", 3, "d", "s", none, none, 4⟩], 4⟩

def c2cexdb : DB := some ⟨[⟨1, "X", 7, "t", "u", none, none, 1⟩], 1⟩

def c3db : DB := some ⟨[], 0⟩

def c3junk : ImageBytes := .invalid [104, 105]

def c4db : DB := some ⟨[⟨1, "Delhi", 5, "a", "p", none, none, 10⟩,
  ⟨2, "Delhi", 4, "b", "q", none, none, 20⟩,
  ⟨3, "Delhi", 3, "c", "r", none, none, 30⟩,
  ⟨4, "Agra", 2, "d", "s", none, none, 40⟩], 4⟩

def c5db : DB := some ⟨[⟨1, "Pune", 5, "a", "p", none, none, 1⟩], 1⟩

def c5ops : List Op := [.addOp ("Pune") 4 ("b") ("q") none none 2,
  .delOp 2, .addOp ("Pune") 3 ("c") ("r") none none 3]

def c6db : DB := some ⟨[⟨1, "mumbai", 5, "a", "p", none, none, 1⟩], 1⟩

def c8db : DB := some ⟨[⟨1, "Kochi", 4, "a", "p", none, none, 1⟩], 1⟩

def c9db : DB := some ⟨[⟨1, "Agra", 5, "a", "p", none, none, 1⟩,
  ⟨2, "Agra", 4, "b", "q", none, none, 2⟩], 2⟩

def c10db : DB := some ⟨[⟨1, "Z", 7, "t", "u", none, none, 1⟩,
  ⟨2, "Z", 5, "v", "w", none, none, 2⟩], 2⟩

def c10cexdb : DB := some ⟨[⟨1, "Y", 0, "t", "u", none, none, 1⟩], 1⟩

/-! ### Properties of the stable descending sort modelling ORDER BY -/

theorem mem_insertByCreatedDesc {a x : Review} {l : List Review} :
    a ∈ insertByCreatedDesc x l ↔ a = x ∨ a ∈ l := by
  induction l with
  | nil => simp [insertByCreatedDesc]
  | cons y ys ih =>
    simp only [insertByCreatedDesc]
    split
    · simp [List.mem_cons]
    · simp only [List.mem_cons, ih]
      tauto

theorem insertByCreatedDesc_perm (x : Review) (l : List Review) :
    (insertByCreatedDesc x l).Perm (x :: l) := by
  induction l with
  | nil => simp [insertByCreatedDesc]
  | cons y ys ih =>
    simp only [insertByCreatedDesc]
    split
    · exact List.Perm.refl _
    · exact (ih.cons y).trans (List.Perm.swap x y ys)

theorem sortByCreatedDesc_perm (l : List Review) : (sortByCreatedDesc l).Perm l := by
  induction l with
  | nil => exact List.Perm.refl _
  | cons x xs ih =>
    exact (insertByCreatedDesc_perm x _).trans (ih.cons x)

theorem insertByCreatedDesc_of_lt {x : Review} {l : List Review}
    (h : ∀ y ∈ l, x.created_at < y.created_at) :
    insertByCreatedDesc x l = l ++ [x] := by
  induction l with
  | nil => rfl
  | cons y ys ih =>
    have hy := h y (List.mem_cons_self y ys)
    simp only [insertByCreatedDesc]
    rw [if_neg (by omega)]
    rw [ih fun z hz => h z (List.mem_cons_of_mem _ hz)]
    rfl

theorem sortByCreatedDesc_of_strict_incr {l : List Review}
    (h : (l.map (fun r => r.created_at)).Pairwise (· < ·)) :
    sortByCreatedDesc l = l.reverse := by
  induction l with
  | nil => rfl
  | cons x xs ih =>
    simp only [List.map_cons, List.pairwise_cons] at h
    simp only [sortByCreatedDesc, ih h.2, List.reverse_cons]
    exact insertByCreatedDesc_of_lt fun y hy =>
      h.1 y.created_at (List.mem_map_of_mem _ (List.mem_reverse.mp hy))

theorem insertByCreatedDesc_pairwise {x : Review} {l : List Review}
    (hl : l.Pairwise (fun a b => newestFirst (rowToDict a) (rowToDict b)))
    (hx : ∀ y ∈ l, x.id < y.id) :
    (insertByCreatedDesc x l).Pairwise
      (fun a b => newestFirst (rowToDict a) (rowToDict b)) := by
  induction l with
  | nil => simp [insertByCreatedDesc]
  | cons y ys ih =>
    rcases List.pairwise_cons.mp hl with ⟨hy, hys⟩
    simp only [insertByCreatedDesc]
    split
    · rename_i hle
      refine List.pairwise_cons.mpr ⟨?_, hl⟩
      intro z hz
      rcases List.mem_cons.mp hz with rfl | hz'
      · rcases Nat.lt_or_ge z.created_at x.created_at with hlt | hge
        · exact Or.inl hlt
        · exact Or.inr ⟨Nat.le_antisymm hge hle, hx z (List.mem_cons_self z ys)⟩
      · rcases hy z hz' with hlt | ⟨heq, _⟩
        · exact Or.inl (Nat.lt_of_lt_of_le hlt hle)
        · rcases Nat.lt_or_ge z.created_at x.created_at with hlt2 | hge2
          · exact Or.inl hlt2
          · have : x.created_at = z.created_at := by
              simp only [rowToDict] at heq
              omega
            exact Or.inr ⟨this, hx z (List.mem_cons_of_mem _ hz')⟩
    · rename_i hgt
      refine List.pairwise_cons.mpr
        ⟨?_, ih hys fun z hz => hx z (List.mem_cons_of_mem _ hz)⟩
      intro z hz
      rcases mem_insertByCreatedDesc.mp hz with rfl | hz'
      · exact Or.inl (by simp only [rowToDict]; omega)
      · exact hy z hz'

theorem sortByCreatedDesc_pairwise {l : List Review}
    (hids : l.Pairwise (fun a b => a.id < b.id)) :
    (sortByCreatedDesc l).Pairwise
      (fun a b => newestFirst (rowToDict a) (rowToDict b)) := by
  induction l with
  | nil => simp [sortByCreatedDesc]
  | cons x xs ih =>
    rcases List.pairwise_cons.mp hids with ⟨hx, hxs⟩
    exact insertByCreatedDesc_pairwise (ih hxs)
      fun y hy => hx y ((sortByCreatedDesc_perm xs).mem_iff.mp hy)

theorem insertIntDesc_perm (x : Int) (l : List Int) : (insertIntDesc x l).Perm (x :: l) := by
  induction l with
  | nil => simp [insertIntDesc]
  | cons y ys ih =>
    simp only [insertIntDesc]
    split
    · exact List.Perm.refl _
    · exact (ih.cons y).trans (List.Perm.swap x y ys)

theorem sortIntDesc_perm (l : List Int) : (sortIntDesc l).Perm l := by
  induction l with
  | nil => exact List.Perm.refl _
  | cons x xs ih =>
    exact (insertIntDesc_perm x _).trans (ih.cons x)

/-! ### Properties of the association-list model of Python dicts -/

theorem dictGet_dictSet_self (d : List (Int × Nat)) (k : Int) (v : Nat) :
    dictGet (dictSet d k v) k = v := by
  induction d with
  | nil => simp [dictSet, dictGet]
  | cons kv d ih =>
    obtain ⟨k', v'⟩ := kv
    simp only [dictSet]
    split
    · simp [dictGet]
    · rename_i h
      simp [dictGet, h, ih]

theorem dictGet_dictSet_ne (d : List (Int × Nat)) {k k2 : Int} (v : Nat)
    (h : k2 ≠ k) : dictGet (dictSet d k v) k2 = dictGet d k2 := by
  have hne : ¬(k = k2) := fun e => h e.symm
  induction d with
  | nil =>
    simp only [dictSet, dictGet]
    rw [if_neg hne]
  | cons kv d ih =>
    obtain ⟨k', v'⟩ := kv
    simp only [dictSet]
    split
    · rename_i he
      subst he
      simp only [dictGet]
      rw [if_neg hne, if_neg hne]
    · simp only [dictGet, ih]

theorem mem_dictKeys_dictSet_self (d : List (Int × Nat)) (k : Int) (v : Nat) :
    k ∈ dictKeys (dictSet d k v) := by
  induction d with
  | nil => simp [dictSet, dictKeys]
  | cons kv d ih =>
    obtain ⟨k', v'⟩ := kv
    simp only [dictSet]
    split
    · simp [dictKeys]
    · simp only [dictKeys, List.map_cons, List.mem_cons]
      exact Or.inr ih

theorem mem_dictKeys_dictSet_of_mem (d : List (Int × Nat)) (k k2 : Int) (v : Nat)
    (h : k2 ∈ dictKeys d) : k2 ∈ dictKeys (dictSet d k v) := by
  induction d with
  | nil => simp [dictKeys] at h
  | cons kv d ih =>
    obtain ⟨k', v'⟩ := kv
    simp only [dictKeys, List.map_cons, List.mem_cons] at h
    simp only [dictSet]
    split
    · rename_i he
      subst he
      simp only [dictKeys, List.map_cons, List.mem_cons]
      rcases h with h | h
      · exact Or.inl h
      · exact Or.inr h
    · simp only [dictKeys, List.map_cons, List.mem_cons]
      rcases h with h | h
      · exact Or.inl h
      · exact Or.inr (ih h)

theorem dictValuesSum_dictSet (d : List (Int × Nat)) (k : Int) (v : Nat)
    (h : dictGet d k = 0) :
    dictValuesSum (dictSet d k v) = dictValuesSum d + v := by
  induction d with
  | nil => simp [dictSet, dictValuesSum]
  | cons kv d ih =>
    obtain ⟨k', v'⟩ := kv
    simp only [dictGet] at h
    simp only [dictSet]
    split
    · rename_i he
      rw [if_pos he] at h
      subst h
      simp [dictValuesSum]
      omega
    · rename_i he
      rw [if_neg he] at h
      simp only [dictValuesSum, List.map_cons, List.sum_cons] at ih ⊢
      rw [ih h]
      omega

/-- Folding the group rows into a dict, as `get_city_rating_summary` does. -/
theorem dictGet_foldl_of_not_mem (gs : List (Int × Nat)) (d : List (Int × Nat))
    (k : Int) (h : k ∉ gs.map Prod.fst) :
    dictGet (gs.foldl (fun d rc => dictSet d rc.1 rc.2) d) k = dictGet d k := by
  induction gs generalizing d with
  | nil => rfl
  | cons rc gs ih =>
    simp only [List.map_cons, List.mem_cons, not_or] at h
    simp only [List.foldl_cons]
    rw [ih _ h.2, dictGet_dictSet_ne _ _ h.1]

theorem dictGet_foldl_of_mem (gs : List (Int × Nat)) (d : List (Int × Nat))
    {k : Int} {c : Nat} (hnd : (gs.map Prod.fst).Nodup) (h : (k, c) ∈ gs) :
    dictGet (gs.foldl (fun d rc => dictSet d rc.1 rc.2) d) k = c := by
  induction gs generalizing d with
  | nil => simp at h
  | cons rc gs ih =>
    simp only [List.map_cons, List.nodup_cons] at hnd
    simp only [List.foldl_cons]
    rcases List.mem_cons.mp h with rfl | h'
    · rw [dictGet_foldl_of_not_mem _ _ _ hnd.1, dictGet_dictSet_self]
    · exact ih _ hnd.2 h'

theorem mem_dictKeys_foldl_of_mem_keys (gs : List (Int × Nat))
    (d : List (Int × Nat)) (k : Int) (h : k ∈ dictKeys d) :
    k ∈ dictKeys (gs.foldl (fun d rc => dictSet d rc.1 rc.2) d) := by
  induction gs generalizing d with
  | nil => exact h
  | cons rc gs ih =>
    simp only [List.foldl_cons]
    exact ih _ (mem_dictKeys_dictSet_of_mem _ _ _ _ h)

theorem mem_dictKeys_foldl_of_mem (gs : List (Int × Nat))
    (d : List (Int × Nat)) (k : Int) (h : k ∈ gs.map Prod.fst) :
    k ∈ dictKeys (gs.foldl (fun d rc => dictSet d rc.1 rc.2) d) := by
  induction gs generalizing d with
  | nil => simp at h
  | cons rc gs ih =>
    simp only [List.map_cons, List.mem_cons] at h
    simp only [List.foldl_cons]
    rcases h with rfl | h'
    · exact mem_dictKeys_foldl_of_mem_keys _ _ _ (mem_dictKeys_dictSet_self _ _ _)
    · exact ih _ h'

theorem dictValuesSum_foldl (gs : List (Int × Nat)) (d : List (Int × Nat))
    (hnd : (gs.map Prod.fst).Nodup) (h0 : ∀ rc ∈ gs, dictGet d rc.1 = 0) :
    dictValuesSum (gs.foldl (fun d rc => dictSet d rc.1 rc.2) d)
      = dictValuesSum d + (gs.map Prod.snd).sum := by
  induction gs generalizing d with
  | nil => simp
  | cons rc gs ih =>
    obtain ⟨k, c⟩ := rc
    simp only [List.map_cons, List.nodup_cons] at hnd
    simp only [List.foldl_cons, List.map_cons, List.sum_cons]
    rw [ih _ hnd.2 ?_, dictValuesSum_dictSet _ _ _ (h0 _ (List.mem_cons_self _ _))]
    · omega
    · intro rc hrc
      rw [dictGet_dictSet_ne _ _ ?_]
      · exact h0 _ (List.mem_cons_of_mem _ hrc)
      · intro he
        exact hnd.1 (he ▸ List.mem_map_of_mem Prod.fst hrc)

theorem dictGet_initSummary (k : Int) : dictGet initSummary k = 0 := by
  simp only [initSummary, dictGet]
  split_ifs <;> rfl

/-! ### Characterisation of `get_city_rating_summary` -/

theorem groupByRating_keys (rows : List Review) :
    (groupByRating rows).map Prod.fst
      = sortIntDesc (rows.map (fun r => r.rating)).dedup := by
  unfold groupByRating
  rw [List.map_map]
  have hid : (Prod.fst ∘ fun (r : Int) =>
      (r, rows.countP (fun x => x.rating == r))) = id := rfl
  rw [hid, List.map_id]

theorem groupByRating_keys_nodup (rows : List Review) :
    ((groupByRating rows).map Prod.fst).Nodup := by
  rw [groupByRating_keys]
  exact (sortIntDesc_perm _).nodup_iff.mpr (List.nodup_dedup _)

theorem countP_rating_eq_count (rows : List Review) (r : Int) :
    rows.countP (fun x => x.rating == r) = (rows.map (fun x => x.rating)).count r := by
  rw [List.count_eq_countP, List.countP_map]
  rfl

theorem groupByRating_counts_sum (rows : List Review) :
    ((groupByRating rows).map Prod.snd).sum = rows.length := by
  have h1 : (groupByRating rows).map Prod.snd
      = (sortIntDesc (rows.map (fun r => r.rating)).dedup).map
          (fun r => (rows.map (fun x => x.rating)).count r) := by
    simp only [groupByRating, List.map_map]
    congr 1
    funext r
    simp only [Function.comp]
    exact countP_rating_eq_count rows r
  rw [h1, ((sortIntDesc_perm _).map _).sum_eq,
    List.sum_map_count_dedup_eq_length]
  exact List.length_map _ _

theorem summary_total (db : DB) (city : String) :
    (get_city_rating_summary db city).2.2
      = ((rowsOf db).filter (fun r => r.city == city)).length := by
  show dictValuesSum _ = _
  rw [dictValuesSum_foldl _ _ (groupByRating_keys_nodup _)
    (fun rc _ => dictGet_initSummary rc.1), groupByRating_counts_sum]
  show 0 + _ = _
  rw [Nat.zero_add]
  rfl

theorem summary_get (db : DB) (city : String) (k : Int) :
    dictGet (get_city_rating_summary db city).1 k
      = (((rowsOf db).filter (fun r => r.city == city)).map
          (fun r => r.rating)).count k := by
  rw [show rowsOf db = (ensureTable db).rows from rfl]
  set matched := (ensureTable db).rows.filter (fun r => r.city == city) with hmatched
  by_cases hk : k ∈ matched.map (fun r => r.rating)
  · have hmem : (k, matched.countP (fun x => x.rating == k))
        ∈ groupByRating matched :=
      List.mem_map_of_mem _
        ((sortIntDesc_perm _).mem_iff.mpr (List.mem_dedup.mpr hk))
    show dictGet ((groupByRating matched).foldl
      (fun d rc => dictSet d rc.1 rc.2) initSummary) k = _
    rw [dictGet_foldl_of_mem _ _ (groupByRating_keys_nodup _) hmem]
    exact countP_rating_eq_count _ k
  · show dictGet ((groupByRating matched).foldl
      (fun d rc => dictSet d rc.1 rc.2) initSummary) k = _
    rw [dictGet_foldl_of_not_mem, dictGet_initSummary]
    · exact (List.count_eq_zero.mpr hk).symm
    · rw [groupByRating_keys]
      intro hc
      exact hk (List.mem_dedup.mp ((sortIntDesc_perm _).mem_iff.mp hc))

theorem summary_keys_all_five (db : DB) (city : String) :
    ∀ k ∈ ([5, 4, 3, 2, 1] : List Int),
      k ∈ dictKeys (get_city_rating_summary db city).1 := by
  intro k hk
  apply mem_dictKeys_foldl_of_mem_keys
  exact hk

theorem summary_key_of_rating (db : DB) (city : String) {k : Int}
    (h : k ∈ ((rowsOf db).filter (fun r => r.city == city)).map
        (fun r => r.rating)) :
    k ∈ dictKeys (get_city_rating_summary db city).1 := by
  apply mem_dictKeys_foldl_of_mem
  rw [groupByRating_keys]
  exact (sortIntDesc_perm _).mem_iff.mpr (List.mem_dedup.mpr h)

theorem summary_avg_def (db : DB) (city : String) :
    (get_city_rating_summary db city).2.1
      = if 0 < (get_city_rating_summary db city).2.2 then
          (((List.range' 1 5).map (fun (r : Nat) =>
            (r : ℚ) * (dictGet (get_city_rating_summary db city).1 (r : Int) : ℚ))).sum)
            / ((get_city_rating_summary db city).2.2 : ℚ)
        else 0 := rfl

/-- The weighted numerator `sum(r * summary[r] for r in range(1, 6))` equals
the plain sum of the in-range elements when the counts count a list. -/
theorem range5_weighted_count (l : List Int) :
    ((List.range' 1 5).map (fun (k : Nat) => (k : ℚ) * ((l.count (k : Int) : ℚ)))).sum
      = (((l.filter (fun x => decide (1 ≤ x ∧ x ≤ 5))).sum : ℤ) : ℚ) := by
  have h5 : List.range' 1 5 = [1, 2, 3, 4, 5] := rfl
  rw [h5]
  induction l with
  | nil => simp
  | cons x l ih =>
    simp only [List.count_cons, List.filter_cons, List.map_cons, List.map_nil,
      List.sum_cons, List.sum_nil, beq_iff_eq, decide_eq_true_eq] at ih ⊢
    by_cases hin : 1 ≤ x ∧ x ≤ 5
    · rw [if_pos hin]
      simp only [List.map_cons, List.sum_cons]
      obtain ⟨ha, hb⟩ := hin
      interval_cases x <;>
        · push_cast at ih ⊢
          norm_num at ih ⊢
          linarith [ih]
    · rw [if_neg hin]
      push_cast
      push_cast at ih
      have hx1 : ¬(x = 1) := by omega
      have hx2 : ¬(x = 2) := by omega
      have hx3 : ¬(x = 3) := by omega
      have hx4 : ¬(x = 4) := by omega
      have hx5 : ¬(x = 5) := by omega
      rw [if_neg hx1, if_neg hx2, if_neg hx3, if_neg hx4, if_neg hx5]
      linarith [ih]

/-- Splitting a sum of integers along a Boolean predicate. -/
theorem sum_filter_split (l : List Int) (p : Int → Bool) :
    (l.filter p).sum + (l.filter (fun x => !(p x))).sum = l.sum := by
  induction l with
  | nil => simp
  | cons x l ih =>
    simp only [List.filter_cons]
    cases hx : p x <;>
      simp only [hx, Bool.not_true, Bool.not_false, Bool.false_eq_true,
        ite_true, ite_false, List.sum_cons] <;> omega

/-! ### The write path -/

theorem rowsOf_add (db : DB) (city : String) (rating : Int)
    (title review_text : String) (pb : Option ImageBytes) (pf : Option String)
    (now : Nat) :
    rowsOf (add_review db city rating title review_text pb pf now).1
      = rowsOf db ++ [newReview db city rating title review_text pb pf now] := rfl

theorem seq_add (db : DB) (city : String) (rating : Int)
    (title review_text : String) (pb : Option ImageBytes) (pf : Option String)
    (now : Nat) :
    (ensureTable (add_review db city rating title review_text pb pf now).1).seq
      = (ensureTable db).seq + 1 := rfl

theorem ids_le_seq {db : DB} (hwf : WF db) :
    ∀ r ∈ rowsOf db, r.id ≤ (ensureTable db).seq := by
  cases db with
  | none =>
    intro r hr
    simp [rowsOf, ensureTable, emptyTable] at hr
  | some t => exact hwf.2

theorem ids_pairwise {db : DB} (hwf : WF db) :
    ((rowsOf db).map (fun r => r.id)).Pairwise (· < ·) := by
  cases db with
  | none => simp [rowsOf, ensureTable, emptyTable]
  | some t => exact hwf.1

theorem mem_get_reviews_of_mem {db : DB} {c : String} {r : Review}
    (h : r ∈ (rowsOf db).filter (fun x => x.city == c)) :
    rowToDict r ∈ get_reviews_for_city db c :=
  List.mem_map_of_mem _ ((sortByCreatedDesc_perm _).mem_iff.mpr h)

/-- What one `add_review` call does: returns `True`, appends the new row
with a strictly larger id than every existing row, and makes it visible to
the list and summary reads of the same city. -/
theorem add_creates (db : DB) (hwf : WF db) (city : String) (rating : Int)
    (title review_text : String) (pb : Option ImageBytes) (pf : Option String)
    (now : Nat) :
    (add_review db city rating title review_text pb pf now).2 = true ∧
    rowsOf (add_review db city rating title review_text pb pf now).1
      = rowsOf db ++ [newReview db city rating title review_text pb pf now] ∧
    (∀ r' ∈ rowsOf db,
      r'.id < (newReview db city rating title review_text pb pf now).id) ∧
    rowToDict (newReview db city rating title review_text pb pf now)
      ∈ get_reviews_for_city
          (add_review db city rating title review_text pb pf now).1 city ∧
    (get_city_rating_summary
        (add_review db city rating title review_text pb pf now).1 city).2.2
      = (get_city_rating_summary db city).2.2 + 1 := by
  refine ⟨rfl, rfl, ?_, ?_, ?_⟩
  · intro r' hr'
    have := ids_le_seq hwf r' hr'
    show r'.id < (ensureTable db).seq + 1
    omega
  · apply mem_get_reviews_of_mem
    rw [rowsOf_add, List.filter_append]
    refine List.mem_append_right _ ?_
    simp [newReview]
  · rw [summary_total, summary_total, rowsOf_add, List.filter_append,
      List.length_append]
    simp [newReview]

theorem length_filter_ne_of_mem {rows : List Review} {rid : Nat}
    (hnd : (rows.map (fun r => r.id)).Nodup)
    (hmem : rid ∈ rows.map (fun r => r.id)) :
    (rows.filter (fun r => r.id != rid)).length + 1 = rows.length := by
  induction rows with
  | nil => simp at hmem
  | cons x rows ih =>
    simp only [List.map_cons, List.nodup_cons, List.mem_cons] at hnd hmem
    simp only [List.filter_cons]
    rcases hmem with heq | hmem'
    · rw [if_neg (by simp [heq])]
      rw [List.filter_eq_self.mpr ?_]
      · simp
      · intro r hr
        have : r.id ≠ rid := by
          intro e
          exact hnd.1 (heq ▸ e ▸ List.mem_map_of_mem _ hr)
        simpa using this
    · have hxne : x.id ≠ rid := fun e => hnd.1 (e ▸ hmem')
      rw [if_pos (by simpa using hxne)]
      have := ih hnd.2 hmem'
      simp only [List.length_cons]
      omega

/-! ### Claim C8 -/

/-- C8: `Initialize()` is idempotent.  For every store state and every
`N ≥ 1`, calling `init_reviews_db` `N` times equals calling it once (and
raises no error, the model being total), the schema exists afterwards, and
an already-initialized store keeps all its reviews unchanged. -/
theorem init_idempotent (db : DB) (N : Nat) (hN : 1 ≤ N) :
    init_reviews_db^[N] db = init_reviews_db db ∧
    (∃ t, init_reviews_db^[N] db = some t) ∧
    (∀ t : ReviewsTable, db = some t → init_reviews_db^[N] db = some t) := by
  have hstep : ∀ d, init_reviews_db (init_reviews_db d) = init_reviews_db d := by
    intro d
    cases d <;> rfl
  have hiter : ∀ n, init_reviews_db^[n + 1] db = init_reviews_db db := by
    intro n
    induction n with
    | zero => rfl
    | succ n ih =>
      rw [Function.iterate_succ_apply', ih]
      exact hstep db
  obtain ⟨n, rfl⟩ : ∃ n, N = n + 1 := ⟨N - 1, by omega⟩
  refine ⟨hiter n, ?_, ?_⟩
  · rw [hiter n]
    exact ⟨ensureTable db, rfl⟩
  · intro t ht
    rw [hiter n, ht]
    rfl

theorem init_idempotent_witness :
    1 ≤ 2 ∧ (init_reviews_db^[2] c8db = init_reviews_db c8db ∧
      (∃ t, init_reviews_db^[2] c8db = some t) ∧
      (∀ t : ReviewsTable, c8db = some t → init_reviews_db^[2] c8db = some t)) :=
  ⟨by decide, init_idempotent c8db 2 (by decide)⟩

/-! ### Claim C9 -/

/-- C9: `delete_review` always returns `True`; deleting an id that is not in
the store leaves every observable read unchanged, and deleting a present id
removes exactly the one review carrying that id. -/
theorem delete_noop_or_removes (db : DB) (hwf : WF db) (review_id : Nat) :
    (delete_review db review_id).2 = true ∧
    (review_id ∉ (rowsOf db).map (fun r => r.id) →
      rowsOf (delete_review db review_id).1 = rowsOf db ∧
      (ensureTable (delete_review db review_id).1).seq = (ensureTable db).seq ∧
      (∀ c, get_reviews_for_city (delete_review db review_id).1 c
          = get_reviews_for_city db c) ∧
      (∀ c, get_city_rating_summary (delete_review db review_id).1 c
          = get_city_rating_summary db c)) ∧
    (review_id ∈ (rowsOf db).map (fun r => r.id) →
      (∀ r : Review, r ∈ rowsOf (delete_review db review_id).1
          ↔ (r ∈ rowsOf db ∧ r.id ≠ review_id)) ∧
      (rowsOf (delete_review db review_id).1).length + 1
        = (rowsOf db).length) := by
  have hrowsdef : rowsOf (delete_review db review_id).1
      = (rowsOf db).filter (fun r => r.id != review_id) := rfl
  refine ⟨rfl, ?_, ?_⟩
  · intro habs
    have hrows : rowsOf (delete_review db review_id).1 = rowsOf db := by
      rw [hrowsdef]
      refine List.filter_eq_self.mpr ?_
      intro r hr
      have : r.id ≠ review_id := fun e => habs (e ▸ List.mem_map_of_mem _ hr)
      simpa using this
    have htab : ensureTable (delete_review db review_id).1 = ensureTable db := by
      show ReviewsTable.mk ((ensureTable db).rows.filter
          (fun r => r.id != review_id)) (ensureTable db).seq = ensureTable db
      have : (ensureTable db).rows.filter (fun r => r.id != review_id)
          = (ensureTable db).rows := hrows
      rw [this]
    refine ⟨hrows, by rw [htab], ?_, ?_⟩
    · intro c
      unfold get_reviews_for_city
      rw [htab]
    · intro c
      unfold get_city_rating_summary
      rw [htab]
  · intro hpres
    have hnd : ((rowsOf db).map (fun r => r.id)).Nodup :=
      (ids_pairwise hwf).imp Nat.ne_of_lt
    refine ⟨?_, ?_⟩
    · intro r
      rw [hrowsdef, List.mem_filter]
      simp [bne_iff_ne]
    · rw [hrowsdef]
      exact length_filter_ne_of_mem hnd hpres

theorem delete_noop_or_removes_witness :
    WF c9db ∧
    ((delete_review c9db 7).2 = true ∧
    (7 ∉ (rowsOf c9db).map (fun r => r.id) →
      rowsOf (delete_review c9db 7).1 = rowsOf c9db ∧
      (ensureTable (delete_review c9db 7).1).seq = (ensureTable c9db).seq ∧
      (∀ c, get_reviews_for_city (delete_review c9db 7).1 c
          = get_reviews_for_city c9db c) ∧
      (∀ c, get_city_rating_summary (delete_review c9db 7).1 c
          = get_city_rating_summary c9db c)) ∧
    (7 ∈ (rowsOf c9db).map (fun r => r.id) →
      (∀ r : Review, r ∈ rowsOf (delete_review c9db 7).1
          ↔ (r ∈ rowsOf c9db ∧ r.id ≠ 7)) ∧
      (rowsOf (delete_review c9db 7).1).length + 1 = (rowsOf c9db).length)) :=
  ⟨by decide, delete_noop_or_removes c9db (by decide) 7⟩

/-! ### Claim C1 -/

/-- C1 counterexample: `add_review` returns the constant `True` (Python
numeric value 1), not the newly assigned id.  On the second insert into a
fresh store the created review has id 2 while the call still returns `True`,
whose numeric value 1 differs from 2. -/
theorem add_review_returns_true_not_id :
    (add_review (add_review (some ⟨[], 0⟩) ("Paris") 5 ("a") ("b") none none 1).1
        ("Paris") 4 ("c") ("d") none none 2).2 = true ∧
    (∃ r ∈ rowsOf (add_review
        (add_review (some ⟨[], 0⟩) ("Paris") 5 ("a") ("b") none none 1).1
        ("Paris") 4 ("c") ("d") none none 2).1, r.title = ("c") ∧ r.id = 2) ∧
    pyBoolToInt (add_review
        (add_review (some ⟨[], 0⟩) ("Paris") 5 ("a") ("b") none none 1).1
        ("Paris") 4 ("c") ("d") none none 2).2 = 1 ∧
    (1 : Int) ≠ 2 := by decide

/-- C1 (amended): AddReview returns `True` — a success flag, not the id —
and the created review, carrying a newly assigned id distinct from every
review already in the store, is immediately visible to subsequent
`get_reviews_for_city` and `get_city_rating_summary` calls on the same
city. -/
theorem add_review_success_and_visible (db : DB) (hwf : WF db) (city : String)
    (rating : Int) (title review_text : String) (pb : Option ImageBytes)
    (pf : Option String) (now : Nat) :
    (add_review db city rating title review_text pb pf now).2 = true ∧
    (∃ r ∈ rowsOf (add_review db city rating title review_text pb pf now).1,
      r.city = city ∧ r.rating = rating ∧ r.title = title ∧
      r.text = review_text ∧ (∀ r' ∈ rowsOf db, r'.id ≠ r.id) ∧
      rowToDict r ∈ get_reviews_for_city
        (add_review db city rating title review_text pb pf now).1 city) ∧
    (get_city_rating_summary
        (add_review db city rating title review_text pb pf now).1 city).2.2
      = (get_city_rating_summary db city).2.2 + 1 := by
  obtain ⟨hret, hrows, hids, hmem, htot⟩ :=
    add_creates db hwf city rating title review_text pb pf now
  refine ⟨hret, ⟨newReview db city rating title review_text pb pf now,
    ?_, rfl, rfl, rfl, rfl, ?_, hmem⟩, htot⟩
  · rw [hrows]
    exact List.mem_append_right _ (List.mem_cons_self _ _)
  · intro r' hr'
    exact Nat.ne_of_lt (hids r' hr')

theorem add_review_success_and_visible_witness :
    WF c1db ∧
    ((add_review c1db ("Paris") 4 ("t") ("x") none none 9).2 = true ∧
    (∃ r ∈ rowsOf (add_review c1db ("Paris") 4 ("t") ("x") none none 9).1,
      r.city = ("Paris") ∧ r.rating = 4 ∧ r.title = ("t") ∧
      r.text = ("x") ∧ (∀ r' ∈ rowsOf c1db, r'.id ≠ r.id) ∧
      rowToDict r ∈ get_reviews_for_city
        (add_review c1db ("Paris") 4 ("t") ("x") none none 9).1 ("Paris")) ∧
    (get_city_rating_summary
        (add_review c1db ("Paris") 4 ("t") ("x") none none 9).1 ("Paris")).2.2
      = (get_city_rating_summary c1db ("Paris")).2.2 + 1) :=
  ⟨by decide,
    add_review_success_and_visible c1db (by decide) ("Paris") 4 ("t") ("x")
      none none 9⟩

/-! ### Claim C3 -/

/-- C3: an AddReview whose photo bytes are present but not decodable still
creates the review — visible to subsequent list and summary calls on the
same city — with `photo_data` absent, rather than failing the call. -/
theorem submit_review_bad_photo_creates (db : DB) (hwf : WF db) (city : String)
    (rating : Int) (title review_text : String) (pb : ImageBytes)
    (hbad : decodeImage pb = none) (pf : Option String) (now : Nat) :
    (submit_review db city rating title review_text (some pb) pf now).2 = true ∧
    (∃ r ∈ rowsOf
        (submit_review db city rating title review_text (some pb) pf now).1,
      r.photo_data = none ∧ r.city = city ∧ r.rating = rating ∧
      r.title = title ∧ rowToDict r ∈ get_reviews_for_city
        (submit_review db city rating title review_text (some pb) pf now).1
        city) ∧
    (get_city_rating_summary
        (submit_review db city rating title review_text (some pb) pf now).1
        city).2.2
      = (get_city_rating_summary db city).2.2 + 1 := by
  have hsub : submit_review db city rating title review_text (some pb) pf now
      = add_review db city rating title review_text none pf now := by
    unfold submit_review
    have hproc : process_submit_photo (some pb) = none := by
      simp [process_submit_photo, hbad]
    rw [hproc]
  rw [hsub]
  obtain ⟨hret, hrows, hids, hmem, htot⟩ :=
    add_creates db hwf city rating title review_text none pf now
  refine ⟨hret, ⟨newReview db city rating title review_text none pf now,
    ?_, rfl, rfl, rfl, rfl, hmem⟩, htot⟩
  rw [hrows]
  exact List.mem_append_right _ (List.mem_cons_self _ _)

theorem submit_review_bad_photo_creates_witness :
    (WF c3db ∧ decodeImage c3junk = none) ∧
    ((submit_review c3db ("Goa") 5 ("t") ("x") (some c3junk) none 3).2 = true ∧
    (∃ r ∈ rowsOf
        (submit_review c3db ("Goa") 5 ("t") ("x") (some c3junk) none 3).1,
      r.photo_data = none ∧ r.city = ("Goa") ∧ r.rating = 5 ∧
      r.title = ("t") ∧ rowToDict r ∈ get_reviews_for_city
        (submit_review c3db ("Goa") 5 ("t") ("x") (some c3junk) none 3).1
        ("Goa")) ∧
    (get_city_rating_summary
        (submit_review c3db ("Goa") 5 ("t") ("x") (some c3junk) none 3).1
        ("Goa")).2.2
      = (get_city_rating_summary c3db ("Goa")).2.2 + 1) :=
  ⟨⟨by decide, by decide⟩,
    submit_review_bad_photo_creates c3db (by decide) ("Goa") 5 ("t") ("x")
      c3junk (by decide) none 3⟩

/-! ### Claim C4 -/

/-- C4: `get_reviews_for_city` returns the matching rows newest-first: when
the matched rows have strictly increasing timestamps in insertion order the
result is exactly the reversed insertion order; in general the output is
sorted descending by `created_at` with ties kept in insertion order
(increasing id), and it is a permutation of the matched rows. -/
theorem get_reviews_newest_first (db : DB) (hwf : WF db) (city : String) :
    ((((rowsOf db).filter (fun r => r.city == city)).map
        (fun r => r.created_at)).Pairwise (· < ·) →
      get_reviews_for_city db city
        = (((rowsOf db).filter (fun r => r.city == city)).reverse).map
            rowToDict) ∧
    (get_reviews_for_city db city).Pairwise newestFirst ∧
    (get_reviews_for_city db city).Perm
      (((rowsOf db).filter (fun r => r.city == city)).map rowToDict) := by
  rw [show rowsOf db = (ensureTable db).rows from rfl]
  refine ⟨?_, ?_, ?_⟩
  · intro hmono
    unfold get_reviews_for_city
    rw [sortByCreatedDesc_of_strict_incr hmono]
  · unfold get_reviews_for_city
    refine List.pairwise_map.mpr ?_
    apply sortByCreatedDesc_pairwise
    exact (List.pairwise_map.mp (ids_pairwise hwf)).filter _
  · unfold get_reviews_for_city
    exact (sortByCreatedDesc_perm _).map rowToDict

theorem get_reviews_newest_first_witness :
    WF c4db ∧
    (((((rowsOf c4db).filter (fun r => r.city == ("Delhi"))).map
        (fun r => r.created_at)).Pairwise (· < ·) →
      get_reviews_for_city c4db ("Delhi")
        = (((rowsOf c4db).filter (fun r => r.city == ("Delhi"))).reverse).map
            rowToDict) ∧
    (get_reviews_for_city c4db ("Delhi")).Pairwise newestFirst ∧
    (get_reviews_for_city c4db ("Delhi")).Perm
      (((rowsOf c4db).filter (fun r => r.city == ("Delhi"))).map rowToDict)) :=
  ⟨by decide, get_reviews_newest_first c4db (by decide) ("Delhi")⟩

/-! ### Claim C6 -/

/-- C6: both reads match rows by exact, case-sensitive string equality on
`city` and therefore over exactly the same set of rows: a stored review
with city `s` is listed under query `c` iff `c = s`, and the summary's
total and per-rating counts range over the rows matched by the same
filter. -/
theorem exact_city_match (db : DB) (hwf : WF db) (s c : String) :
    (∀ r ∈ rowsOf db, r.city = s →
      (rowToDict r ∈ get_reviews_for_city db c ↔ c = s)) ∧
    (get_city_rating_summary db c).2.2
      = ((rowsOf db).filter (fun r => r.city == c)).length ∧
    (∀ k : Int, dictGet (get_city_rating_summary db c).1 k
      = (((rowsOf db).filter (fun r => r.city == c)).map
          (fun r => r.rating)).count k) := by
  refine ⟨?_, summary_total db c, summary_get db c⟩
  intro r hr hcity
  constructor
  · intro hmem
    unfold get_reviews_for_city at hmem
    obtain ⟨r', hr', heq⟩ := List.mem_map.mp hmem
    have hr'2 : r' ∈ (rowsOf db).filter (fun x => x.city == c) :=
      (sortByCreatedDesc_perm _).mem_iff.mp hr'
    obtain ⟨hr'mem, hr'city⟩ := List.mem_filter.mp hr'2
    have hid : r'.id = r.id := congrArg ReviewOut.id heq
    have hnd : ((rowsOf db).map (fun x => x.id)).Nodup :=
      (ids_pairwise hwf).imp Nat.ne_of_lt
    have hrr : r' = r := List.inj_on_of_nodup_map hnd hr'mem hr hid
    have h1 : r.city = c := by rw [← hrr]; exact beq_iff_eq.mp hr'city
    rw [← h1]
    exact hcity
  · intro hcs
    apply mem_get_reviews_of_mem
    rw [List.mem_filter]
    exact ⟨hr, by simp [hcity, hcs]⟩

theorem exact_city_match_witness :
    WF c6db ∧
    ((∀ r ∈ rowsOf c6db, r.city = ("mumbai") →
      (rowToDict r ∈ get_reviews_for_city c6db ("Mumbai") ↔
        ("Mumbai") = ("mumbai"))) ∧
    (get_city_rating_summary c6db ("Mumbai")).2.2
      = ((rowsOf c6db).filter (fun r => r.city == ("Mumbai"))).length ∧
    (∀ k : Int, dictGet (get_city_rating_summary c6db ("Mumbai")).1 k
      = (((rowsOf c6db).filter (fun r => r.city == ("Mumbai"))).map
          (fun r => r.rating)).count k)) :=
  ⟨by decide, exact_city_match c6db (by decide) ("mumbai") ("Mumbai")⟩

/-! ### Claim C7 -/

theorem round_core (num den fl rem : Nat) (hnum : 1 ≤ num)
    (hle : num ≤ den) (hdm : fl * den + rem = 800 * num) (hremlt : rem < den)
    (hfl800 : fl ≤ 800) (hflnum : 801 ≤ den → fl < num) :
    1 ≤ max (if 2 * rem ≤ den then fl else fl + 1) 1 ∧
    max (if 2 * rem ≤ den then fl else fl + 1) 1 ≤ 800 ∧
    (801 ≤ den → max (if 2 * rem ≤ den then fl else fl + 1) 1 ≤ num) ∧
    max (if 2 * rem ≤ den then fl else fl + 1) 1 * den ≤ 800 * num + den ∧
    800 * num ≤ max (if 2 * rem ≤ den then fl else fl + 1) 1 * den + den := by
  by_cases hc : 2 * rem ≤ den
  · rw [if_pos hc]
    rcases Nat.eq_zero_or_pos fl with hfz | hfp
    · rw [hfz] at hdm ⊢
      simp only [Nat.zero_max]
      refine ⟨le_refl 1, by omega, fun _ => hnum, ?_, ?_⟩ <;> omega
    · rw [Nat.max_eq_left hfp]
      refine ⟨hfp, hfl800, fun hbig => by have := hflnum hbig; omega, by omega,
        by omega⟩
  · rw [if_neg hc]
    rw [Nat.max_eq_left (by omega : 1 ≤ fl + 1)]
    have hfllt : fl < 800 := by
      rcases Nat.lt_or_ge fl 800 with hlt | hge
      · exact hlt
      · exfalso
        have hfe : fl = 800 := Nat.le_antisymm hfl800 hge
        have h8 : 800 * num ≤ 800 * den := by omega
        rw [hfe] at hdm
        omega
    refine ⟨by omega, by omega, fun hbig => by have := hflnum hbig; omega,
      ?_, ?_⟩ <;>
      · rw [Nat.add_mul, Nat.one_mul]
        omega

theorem round_aspect800_spec (num den : Nat) (hnum : 1 ≤ num) (hden : 1 ≤ den)
    (hle : num ≤ den) :
    1 ≤ round_aspect800 num den ∧
    round_aspect800 num den ≤ 800 ∧
    (801 ≤ den → round_aspect800 num den ≤ num) ∧
    round_aspect800 num den * den ≤ 800 * num + den ∧
    800 * num ≤ round_aspect800 num den * den + den := by
  have hdm : (800 * num / den) * den + 800 * num % den = 800 * num :=
    Nat.div_add_mod' _ _
  have hremlt : 800 * num % den < den := Nat.mod_lt _ (by omega)
  have hfl800 : 800 * num / den ≤ 800 := by
    calc 800 * num / den ≤ 800 * den / den :=
          Nat.div_le_div_right (Nat.mul_le_mul_left _ hle)
      _ = 800 := Nat.mul_div_cancel 800 (by omega)
  have hflnum : 801 ≤ den → 800 * num / den < num := by
    intro hbig
    apply Nat.div_lt_of_lt_mul
    have h2 : 801 * num ≤ den * num := Nat.mul_le_mul_right _ hbig
    omega
  have hshow : round_aspect800 num den
      = max (if 2 * (800 * num % den) ≤ den then 800 * num / den
          else 800 * num / den + 1) 1 := rfl
  rw [hshow]
  exact round_core num den (800 * num / den) (800 * num % den) hnum hle
    hdm hremlt hfl800 hflnum

/-- C7: for every decodable image the stored photo is re-encoded as JPEG at
quality 85 with both dimensions at most 800, neither dimension upscaled past
the original, dimensions left unchanged when the image already fits in
800×800, and the aspect ratio preserved within rounding:
`|w′·h − h′·w| ≤ max w h`, i.e. `|w′/h′ − w/h| ≤ 1/h′` scaled. -/
theorem photo_resize_spec (w h : Nat) (hw : 1 ≤ w) (hh : 1 ≤ h)
    (fmt : String) (q : Nat) :
    process_submit_photo (some (ImageBytes.valid w h fmt q))
      = some (ImageBytes.valid (thumbnail800 w h).1 (thumbnail800 w h).2
          ("JPEG") 85) ∧
    (thumbnail800 w h).1 ≤ 800 ∧ (thumbnail800 w h).2 ≤ 800 ∧
    (thumbnail800 w h).1 ≤ w ∧ (thumbnail800 w h).2 ≤ h ∧
    1 ≤ (thumbnail800 w h).1 ∧ 1 ≤ (thumbnail800 w h).2 ∧
    (w ≤ 800 ∧ h ≤ 800 → thumbnail800 w h = (w, h)) ∧
    (((thumbnail800 w h).1 * h : ℤ) - ((thumbnail800 w h).2 * w : ℤ)).natAbs
      ≤ max w h := by
  refine ⟨rfl, ?_⟩
  unfold thumbnail800
  by_cases hsmall : w ≤ 800 ∧ h ≤ 800
  · rw [if_pos hsmall]
    refine ⟨hsmall.1, hsmall.2, le_refl w, le_refl h, hw, hh, fun _ => rfl, ?_⟩
    show ((w : ℤ) * h - (h : ℤ) * w).natAbs ≤ max w h
    have hz : (w : ℤ) * h - (h : ℤ) * w = 0 := by ring
    rw [hz]
    simp
  · rw [if_neg hsmall]
    by_cases hwh : w ≤ h
    · rw [if_pos hwh]
      simp only []
      obtain ⟨h1, h2, h3, h4, h5⟩ := round_aspect800_spec w h hw hh hwh
      have hbig : 801 ≤ h := by omega
      exact ⟨h2, le_refl 800, h3 hbig, by omega, h1, by omega,
        fun hc => absurd hc hsmall, by omega⟩
    · rw [if_neg hwh]
      simp only []
      obtain ⟨h1, h2, h3, h4, h5⟩ := round_aspect800_spec h w hh hw (by omega)
      have hbig : 801 ≤ w := by omega
      exact ⟨le_refl 800, h2, by omega, h3 hbig, by omega, h1,
        fun hc => absurd hc hsmall, by omega⟩

theorem photo_resize_spec_witness :
    (1 ≤ 1600 ∧ 1 ≤ 1200) ∧
    (process_submit_photo (some (ImageBytes.valid 1600 1200 ("PNG") 0))
      = some (ImageBytes.valid (thumbnail800 1600 1200).1
          (thumbnail800 1600 1200).2 ("JPEG") 85) ∧
    (thumbnail800 1600 1200).1 ≤ 800 ∧ (thumbnail800 1600 1200).2 ≤ 800 ∧
    (thumbnail800 1600 1200).1 ≤ 1600 ∧ (thumbnail800 1600 1200).2 ≤ 1200 ∧
    1 ≤ (thumbnail800 1600 1200).1 ∧ 1 ≤ (thumbnail800 1600 1200).2 ∧
    (1600 ≤ 800 ∧ 1200 ≤ 800 → thumbnail800 1600 1200 = (1600, 1200)) ∧
    (((thumbnail800 1600 1200).1 * 1200 : ℤ)
        - ((thumbnail800 1600 1200).2 * 1600 : ℤ)).natAbs ≤ max 1600 1200) :=
  ⟨⟨by decide, by decide⟩,
    photo_resize_spec 1600 1200 (by decide) (by decide) ("PNG") 0⟩

/-! ### Claim C5 -/

theorem wf_add (db : DB) (hwf : WF db) (c : String) (r : Int) (t x : String)
    (p : Option ImageBytes) (f : Option String) (n : Nat) :
    WF (add_review db c r t x p f n).1 := by
  show TableWF ⟨(ensureTable db).rows ++ [newReview db c r t x p f n],
    (ensureTable db).seq + 1⟩
  refine ⟨?_, ?_⟩
  · rw [List.map_append, List.pairwise_append]
    refine ⟨ids_pairwise hwf, ?_, ?_⟩
    · simp
    · intro a ha b hb
      simp only [List.map_cons, List.map_nil, List.mem_cons,
        List.not_mem_nil, or_false] at hb
      subst hb
      obtain ⟨r0, hr0, rfl⟩ := List.mem_map.mp ha
      have := ids_le_seq hwf r0 hr0
      show r0.id < (ensureTable db).seq + 1
      omega
  · intro rr hrr
    rcases List.mem_append.mp hrr with hmem | hmem
    · have := ids_le_seq hwf rr hmem
      show rr.id ≤ (ensureTable db).seq + 1
      omega
    · simp only [List.mem_cons, List.not_mem_nil, or_false] at hmem
      subst hmem
      show (newReview db c r t x p f n).id ≤ (ensureTable db).seq + 1
      exact Nat.le_refl _

theorem wf_delete (db : DB) (hwf : WF db) (i : Nat) :
    WF (delete_review db i).1 := by
  show TableWF _
  refine ⟨?_, ?_⟩
  · exact ((ids_pairwise hwf).sublist
      (List.Sublist.map _ (List.filter_sublist _)))
  · intro r hr
    exact ids_le_seq hwf r (List.mem_of_mem_filter hr)

theorem wf_applyOp (db : DB) (hwf : WF db) (op : Op) : WF (applyOp db op) := by
  cases op with
  | addOp c r t x p f n => exact wf_add db hwf c r t x p f n
  | delOp i => exact wf_delete db hwf i

theorem assigned_increasing (ops : List Op) : ∀ (db : DB), WF db →
    (assignedIds db ops).Pairwise (· < ·) ∧
    ∀ i ∈ assignedIds db ops, (ensureTable db).seq < i := by
  induction ops with
  | nil =>
    intro db _
    exact ⟨List.Pairwise.nil, by simp [assignedIds]⟩
  | cons op ops ih =>
    intro db hwf
    obtain ⟨hp, hgt⟩ := ih _ (wf_applyOp db hwf op)
    cases op with
    | addOp c r t x p f n =>
      have hseq : (ensureTable (applyOp db (Op.addOp c r t x p f n))).seq
          = (ensureTable db).seq + 1 := rfl
      have hdef : assignedIds db (Op.addOp c r t x p f n :: ops)
          = ((ensureTable db).seq + 1)
            :: assignedIds (applyOp db (Op.addOp c r t x p f n)) ops := rfl
      rw [hdef]
      constructor
      · refine List.pairwise_cons.mpr ⟨?_, hp⟩
        intro i hi
        have := hgt i hi
        rw [hseq] at this
        omega
      · intro i hi
        rcases List.mem_cons.mp hi with rfl | hi'
        · omega
        · have := hgt i hi'
          rw [hseq] at this
          omega
    | delOp j =>
      have hseq : (ensureTable (applyOp db (Op.delOp j))).seq
          = (ensureTable db).seq := rfl
      have hdef : assignedIds db (Op.delOp j :: ops)
          = assignedIds (applyOp db (Op.delOp j)) ops := rfl
      rw [hdef]
      refine ⟨hp, ?_⟩
      intro i hi
      have := hgt i hi
      rw [hseq] at this
      exact this

/-- C5: across any operation sequence, the ids of the rows already in the
store followed by the ids assigned by the successive AddReview operations
form a strictly increasing list: every assigned id is distinct from every
id that ever existed (so deleted ids are never reassigned), and all
assigned ids are mutually distinct. -/
theorem ids_never_reused (db : DB) (hwf : WF db) (ops : List Op) :
    (((rowsOf db).map (fun r => r.id)) ++ assignedIds db ops).Pairwise
      (· < ·) := by
  rw [List.pairwise_append]
  obtain ⟨hp, hgt⟩ := assigned_increasing ops db hwf
  refine ⟨ids_pairwise hwf, hp, ?_⟩
  intro a ha b hb
  obtain ⟨r0, hr0, rfl⟩ := List.mem_map.mp ha
  have h1 := ids_le_seq hwf r0 hr0
  have h2 := hgt b hb
  omega

theorem ids_never_reused_witness :
    WF c5db ∧
    (((rowsOf c5db).map (fun r => r.id)) ++ assignedIds c5db c5ops).Pairwise
      (· < ·) :=
  ⟨by decide, ids_never_reused c5db (by decide) c5ops⟩

/-! ### Claim C2 -/

/-- C2 counterexample: the store accepts out-of-range ratings, and for a
city whose only review has rating 7 the returned counts mapping is
`{5:0, 4:0, 3:0, 2:0, 1:0, 7:1}` with total 1; `Σ (rating × count) / total`
over that mapping is 7, but the returned average is 0 — the average is not
the mapping-weighted quotient the claim states. -/
theorem summary_average_ignores_extra_key :
    (get_city_rating_summary c2cexdb ("X")).1
      = [(5, 0), (4, 0), (3, 0), (2, 0), (1, 0), (7, 1)] ∧
    (get_city_rating_summary c2cexdb ("X")).2.2 = 1 ∧
    (((get_city_rating_summary c2cexdb ("X")).1.map
        (fun kv => (kv.1 : ℚ) * (kv.2 : ℚ))).sum)
      / ((get_city_rating_summary c2cexdb ("X")).2.2 : ℚ) = 7 ∧
    (get_city_rating_summary c2cexdb ("X")).2.1 = 0 ∧
    (get_city_rating_summary c2cexdb ("X")).2.1
      ≠ (((get_city_rating_summary c2cexdb ("X")).1.map
        (fun kv => (kv.1 : ℚ) * (kv.2 : ℚ))).sum)
      / ((get_city_rating_summary c2cexdb ("X")).2.2 : ℚ) := by
  have hdict : (get_city_rating_summary c2cexdb ("X")).1
      = [(5, 0), (4, 0), (3, 0), (2, 0), (1, 0), (7, 1)] := by decide
  have htot : (get_city_rating_summary c2cexdb ("X")).2.2 = 1 := by decide
  have h5 : List.range' 1 5 = [1, 2, 3, 4, 5] := rfl
  have havg : (get_city_rating_summary c2cexdb ("X")).2.1 = 0 := by
    rw [summary_avg_def, if_pos (by rw [htot]; norm_num), hdict, htot, h5]
    norm_num [dictGet]
  refine ⟨hdict, htot, ?_, havg, ?_⟩
  · rw [hdict, htot]
    norm_num
  · rw [havg, hdict, htot]
    norm_num

/-- C2 (amended): the summary mapping always contains the five keys 5..1;
each key's count is the number of exactly-matched rows with that rating;
total is the sum of the counts in the mapping and equals the number of
matched rows; and the average equals `Σ (r × count_r) / total` taken over
ratings 1 through 5 only when total > 0, and 0 when total = 0 — never an
error or NaN, the model being total.  (When every matched rating lies in
1..5 the restriction to 1..5 coincides with the whole mapping.) -/
theorem summary_counts_total_average (db : DB) (city : String) :
    (∀ k ∈ ([5, 4, 3, 2, 1] : List Int),
      k ∈ dictKeys (get_city_rating_summary db city).1) ∧
    (∀ k : Int, dictGet (get_city_rating_summary db city).1 k
      = (((rowsOf db).filter (fun r => r.city == city)).map
          (fun r => r.rating)).count k) ∧
    (get_city_rating_summary db city).2.2
      = dictValuesSum (get_city_rating_summary db city).1 ∧
    (get_city_rating_summary db city).2.2
      = ((rowsOf db).filter (fun r => r.city == city)).length ∧
    (0 < (get_city_rating_summary db city).2.2 →
      (get_city_rating_summary db city).2.1
        = (((List.range' 1 5).map (fun (k : Nat) => (k : ℚ)
            * ((((rowsOf db).filter (fun r => r.city == city)).map
                (fun r => r.rating)).count (k : Int) : ℚ))).sum)
          / ((get_city_rating_summary db city).2.2 : ℚ)) ∧
    ((get_city_rating_summary db city).2.2 = 0 →
      (get_city_rating_summary db city).2.1 = 0) := by
  refine ⟨summary_keys_all_five db city, summary_get db city, rfl,
    summary_total db city, ?_, ?_⟩
  · intro hpos
    rw [summary_avg_def, if_pos hpos]
    congr 1
    exact congrArg List.sum
      (List.map_congr_left (fun (k : Nat) _ => by rw [summary_get]))
  · intro hzero
    rw [summary_avg_def, if_neg (by omega)]

theorem summary_counts_total_average_witness :
    (get_city_rating_summary c2db ("Goa")).2.2 = 4 ∧
    dictGet (get_city_rating_summary c2db ("Goa")).1 5 = 2 ∧
    dictGet (get_city_rating_summary c2db ("Goa")).1 4 = 1 ∧
    dictGet (get_city_rating_summary c2db ("Goa")).1 3 = 1 ∧
    dictGet (get_city_rating_summary c2db ("Goa")).1 2 = 0 ∧
    dictGet (get_city_rating_summary c2db ("Goa")).1 1 = 0 ∧
    (get_city_rating_summary c2db ("Goa")).2.1 = 4.25 := by
  obtain ⟨hkeys, hget, htotsum, htot, havg, hzero⟩ :=
    summary_counts_total_average c2db ("Goa")
  have h4 : (get_city_rating_summary c2db ("Goa")).2.2 = 4 := by decide
  refine ⟨h4, by decide, by decide, by decide, by decide, by decide, ?_⟩
  rw [havg (by omega), h4]
  have hm : (((rowsOf c2db).filter (fun r => r.city == ("Goa"))).map
      (fun r => r.rating)) = [5, 5, 4, 3] := by decide
  rw [hm, show List.range' 1 5 = [1, 2, 3, 4, 5] from rfl]
  simp only [List.map_cons, List.map_nil, List.sum_cons, List.sum_nil]
  norm_num [List.count_cons]

/-! ### Claim C10 -/

/-- C10 counterexample: a stored rating 0 lies outside [1,5]; for city "Y"
with that single review the summary gains the extra key 0, the average is
computed over ratings 1..5 only, yet average × total (= 0) equals the sum
of the matched ratings (= 0), contradicting the claim's "does not equal". -/
theorem summary_zero_rating_average_times_total_equals_sum :
    ((0 : Int) < 1 ∨ 5 < (0 : Int)) ∧
    (∃ r ∈ (rowsOf c10cexdb).filter (fun x => x.city == ("Y")),
      r.rating = 0) ∧
    (0 : Int) ∈ dictKeys (get_city_rating_summary c10cexdb ("Y")).1 ∧
    (get_city_rating_summary c10cexdb ("Y")).2.2 = 1 ∧
    (get_city_rating_summary c10cexdb ("Y")).2.1
        * ((get_city_rating_summary c10cexdb ("Y")).2.2 : ℚ)
      = (((((rowsOf c10cexdb).filter (fun x => x.city == ("Y"))).map
          (fun r => r.rating)).sum : ℤ) : ℚ) := by
  have havg : (get_city_rating_summary c10cexdb ("Y")).2.1 = 0 := by
    have hdict : (get_city_rating_summary c10cexdb ("Y")).1
        = [(5, 0), (4, 0), (3, 0), (2, 0), (1, 0), (0, 1)] := by decide
    have htot : (get_city_rating_summary c10cexdb ("Y")).2.2 = 1 := by decide
    rw [summary_avg_def, if_pos (by rw [htot]; norm_num), hdict, htot,
      show List.range' 1 5 = [1, 2, 3, 4, 5] from rfl]
    norm_num [dictGet]
  have hsum : ((((rowsOf c10cexdb).filter (fun x => x.city == ("Y"))).map
      (fun r => r.rating)).sum) = 0 := by decide
  refine ⟨by decide, by decide, by decide, by decide, ?_⟩
  rw [havg, hsum]
  norm_num

/-- C10 (amended): if some matched review's rating lies outside [1,5], the
summary mapping contains that rating as an extra key besides the five keys
5..1, the total still counts that review (it is the number of matched rows),
and the average is computed over ratings 1..5 only, so that average × total
plus the sum of the out-of-range matched ratings equals the sum of all
matched ratings — they differ exactly when the out-of-range ratings sum to
a nonzero value. -/
theorem summary_out_of_range_key (db : DB) (city : String) (r0 : Review)
    (h0 : r0 ∈ (rowsOf db).filter (fun x => x.city == city))
    (hout : r0.rating < 1 ∨ 5 < r0.rating) :
    r0.rating ∈ dictKeys (get_city_rating_summary db city).1 ∧
    r0.rating ∉ ([5, 4, 3, 2, 1] : List Int) ∧
    (∀ k ∈ ([5, 4, 3, 2, 1] : List Int),
      k ∈ dictKeys (get_city_rating_summary db city).1) ∧
    (get_city_rating_summary db city).2.2
      = ((rowsOf db).filter (fun x => x.city == city)).length ∧
    (get_city_rating_summary db city).2.1
        * ((get_city_rating_summary db city).2.2 : ℚ)
      + ((((((rowsOf db).filter (fun x => x.city == city)).map
            (fun r => r.rating)).filter
              (fun x => !(decide (1 ≤ x ∧ x ≤ 5)))).sum : ℤ) : ℚ)
      = (((((rowsOf db).filter (fun x => x.city == city)).map
          (fun r => r.rating)).sum : ℤ) : ℚ) := by
  have hmem' : r0.rating
      ∈ ((rowsOf db).filter (fun x => x.city == city)).map
          (fun r => r.rating) :=
    List.mem_map_of_mem _ h0
  refine ⟨summary_key_of_rating db city hmem', ?_,
    summary_keys_all_five db city, summary_total db city, ?_⟩
  · intro hc
    simp only [List.mem_cons, List.not_mem_nil, or_false] at hc
    omega
  · have htotpos : 0 < (get_city_rating_summary db city).2.2 := by
      rw [summary_total]
      exact List.length_pos_of_mem h0
    have htne : ((get_city_rating_summary db city).2.2 : ℚ) ≠ 0 :=
      Nat.cast_ne_zero.mpr (by omega)
    have havg := summary_avg_def db city
    rw [if_pos htotpos] at havg
    have hnum : ((List.range' 1 5).map (fun (k : Nat) => (k : ℚ)
        * (dictGet (get_city_rating_summary db city).1 (k : Int) : ℚ))).sum
        = ((((((rowsOf db).filter (fun x => x.city == city)).map
            (fun r => r.rating)).filter
              (fun x => decide (1 ≤ x ∧ x ≤ 5))).sum : ℤ) : ℚ) := by
      rw [List.map_congr_left (fun (k : Nat) _ => by
        rw [summary_get db city (k : Int)])]
      exact range5_weighted_count _
    rw [havg, div_mul_cancel₀ _ htne, hnum]
    have hsplit := sum_filter_split
      (((rowsOf db).filter (fun x => x.city == city)).map (fun r => r.rating))
      (fun x => decide (1 ≤ x ∧ x ≤ 5))
    rw [← hsplit]
    push_cast
    ring

theorem summary_out_of_range_key_witness :
    ((⟨1, ("Z"), 7, ("t"), ("u"), none, none, 1⟩ : Review)
        ∈ (rowsOf c10db).filter (fun x => x.city == ("Z")) ∧
      ((7 : Int) < 1 ∨ 5 < (7 : Int))) ∧
    ((7 : Int) ∈ dictKeys (get_city_rating_summary c10db ("Z")).1 ∧
    (7 : Int) ∉ ([5, 4, 3, 2, 1] : List Int) ∧
    (∀ k ∈ ([5, 4, 3, 2, 1] : List Int),
      k ∈ dictKeys (get_city_rating_summary c10db ("Z")).1) ∧
    (get_city_rating_summary c10db ("Z")).2.2
      = ((rowsOf c10db).filter (fun x => x.city == ("Z"))).length ∧
    (get_city_rating_summary c10db ("Z")).2.1
        * ((get_city_rating_summary c10db ("Z")).2.2 : ℚ)
      + ((((((rowsOf c10db).filter (fun x => x.city == ("Z"))).map
            (fun r => r.rating)).filter
              (fun x => !(decide (1 ≤ x ∧ x ≤ 5)))).sum : ℤ) : ℚ)
      = (((((rowsOf c10db).filter (fun x => x.city == ("Z"))).map
          (fun r => r.rating)).sum : ℤ) : ℚ)) :=
  ⟨⟨by decide, by decide⟩,
    summary_out_of_range_key c10db ("Z")
      ⟨1, ("Z"), 7, ("t"), ("u"), none, none, 1⟩ (by decide) (by decide)⟩

end CityPulse
